import Mathlib

/-!
Verification of the Veridat explorer block decoder (src/server.js).

The decoder is embedded shallowly: a byte buffer is a `List Nat` (each entry a
byte value 0..255 as produced by a Node `Buffer`), JavaScript 32-bit signed
bitwise arithmetic is made explicit through `toInt32` and modular reduction,
out-of-bounds buffer reads (which yield `undefined` in JavaScript and hence
match no tag) are `Option`-valued reads, and the thrown-and-caught decode
failures are an `Except String` layer.  The two field-scan loops of
`parseBlockData` can fail to terminate in the source (a length-delimited
field whose decoded 32-bit length is negative can move the cursor backwards),
so they are embedded with explicit fuel; exhausting the fuel yields `none`,
every terminating run of the source yields `some` for all sufficiently large
fuel.
-/

deriving instance DecidableEq for Except

/-- Interpret the low 32 bits of `n` as a two's-complement signed 32-bit
integer, the value range JavaScript bitwise operators produce. -/
def toInt32 (n : Nat) : Int :=
  let m : Nat := n % 2 ^ 32
  if m < 2 ^ 31 then (m : Int) else (m : Int) - 2 ^ 32

/-- `buffer[i]` in JavaScript: `some` byte when `0 ≤ i < length`, otherwise
`none` (JavaScript `undefined`, which compares unequal to every tag byte). -/
def getByte (l : List Nat) (i : Int) : Option Nat :=
  if 0 ≤ i then l.get? i.toNat else none

/-- `buffer.slice(start, stop)` with ECMAScript index clamping: a negative
index counts from the end of the buffer, and both indices are clamped to
`[0, length]`. -/
def jsSlice (l : List Nat) (start stop : Int) : List Nat :=
  let len : Int := l.length
  let s : Int := if start < 0 then max (len + start) 0 else min start len
  let e : Int := if stop < 0 then max (len + stop) 0 else min stop len
  (l.take e.toNat).drop s.toNat

/-- Lowercase hexadecimal digit for `n < 16`. -/
def hexChar (n : Nat) : Char :=
  if n < 10 then Char.ofNat (48 + n) else Char.ofNat (87 + n)

/-- Two lowercase hexadecimal characters of one byte, as Node's
`Buffer.toString('hex')` renders it. -/
def hexOfByte (b : Nat) : String :=
  String.mk [hexChar (b / 16 % 16), hexChar (b % 16)]

/-- Node `Buffer.from(bytes).toString('hex')`. -/
def hexOfList (l : List Nat) : String :=
  String.join (l.map hexOfByte)

/-- The record returned by `decodeVarint` (src/server.js:130):
`value` is the 32-bit signed accumulation, `bytesRead` the number of bytes
consumed. -/
structure VarintResult where
  value : Int
  bytesRead : Nat
deriving DecidableEq, Repr

/-- The do/while loop of `decodeVarint` (src/server.js:121-128), consuming
the bytes from the cursor on.  `acc` is the unsigned 32-bit bit pattern of the
JavaScript `result` variable and `shift` the `shift` variable; one step
computes `result |= (byte & 0x7f) << shift` under JavaScript semantics
(shift count taken mod 32, result truncated to 32 bits) and continues while
the continuation bit `byte & 0x80` is set.  An empty remainder is the
`pos >= buffer.length` check throwing. -/
def decodeVarintLoop : List Nat → Nat → Nat → Except String (Nat × Nat)
  | [], _, _ => .error "Varint extends beyond buffer"
  | b :: rest, acc, shift =>
    let acc' := acc ||| ((b &&& 0x7f) <<< (shift % 32)) % 2 ^ 32
    if b &&& 0x80 = 0 then
      .ok (acc', 1)
    else
      match decodeVarintLoop rest acc' (shift + 7) with
      | .ok (v, k) => .ok (v, k + 1)
      | .error e => .error e

/-- `decodeVarint(buffer, offset)` (src/server.js:115-131). -/
def decodeVarint (buffer : List Nat) (offset : Nat) : Except String VarintResult :=
  match decodeVarintLoop (buffer.drop offset) 0 0 with
  | .ok (pat, k) => .ok ⟨toInt32 pat, k⟩
  | .error e => .error e

/-- The three header fields accumulated by the header scan of
`parseBlockData` (src/server.js:137-142). -/
structure HeaderFields where
  blockNumber : Option Int
  previousHash : Option String
  dataHash : Option String
deriving DecidableEq, Repr

/-- The record `parseBlockData` returns (src/server.js:137-142, 212-218):
header fields, transaction count, and the caught failure description when
the decode failed. -/
structure BlockMetadata where
  blockNumber : Option Int
  previousHash : Option String
  dataHash : Option String
  transactionCount : Nat
  error : Option String
deriving DecidableEq, Repr

/-- The header-contents loop of `parseBlockData` (src/server.js:156-183):
while the cursor is below `headerEnd`, dispatch on the byte under the cursor
(tag `0x08` reads a varint block number, tags `0x12`/`0x1a` read a
length-delimited hash and hex-encode it, anything else — including an
out-of-range read — advances by one byte).  The cursor is an `Int` because a
negative decoded hash length can move it below zero.  `none` means the fuel
ran out (the source loop did not terminate within `fuel` iterations). -/
def headerLoop (buffer : List Nat) : Nat → Int → Int → HeaderFields →
    Option (Except String HeaderFields)
  | 0, _, _, _ => none
  | fuel + 1, pos, headerEnd, r =>
    if pos < headerEnd then
      if getByte buffer pos = some 0x08 then
        match decodeVarint buffer (pos + 1).toNat with
        | .error e => some (.error e)
        | .ok v =>
          headerLoop buffer fuel (pos + 1 + (v.bytesRead : Int)) headerEnd
            { r with blockNumber := some v.value }
      else if getByte buffer pos = some 0x12 then
        match decodeVarint buffer (pos + 1).toNat with
        | .error e => some (.error e)
        | .ok v =>
          let p := pos + 1 + (v.bytesRead : Int)
          headerLoop buffer fuel (p + v.value) headerEnd
            { r with previousHash := some (hexOfList (jsSlice buffer p (p + v.value))) }
      else if getByte buffer pos = some 0x1a then
        match decodeVarint buffer (pos + 1).toNat with
        | .error e => some (.error e)
        | .ok v =>
          let p := pos + 1 + (v.bytesRead : Int)
          headerLoop buffer fuel (p + v.value) headerEnd
            { r with dataHash := some (hexOfList (jsSlice buffer p (p + v.value))) }
      else
        headerLoop buffer fuel (pos + 1) headerEnd r
    else
      some (.ok r)

/-- The transaction-counting loop of `parseBlockData` (src/server.js:195-204):
while the cursor is below `dataEnd` and the byte under the cursor is the
envelope tag `0x0a`, read the envelope's length varint, skip its payload and
count it; any other byte (or an out-of-range read) stops the count.  `none`
means the fuel ran out. -/
def dataLoop (buffer : List Nat) : Nat → Int → Int → Nat →
    Option (Except String Nat)
  | 0, _, _, _ => none
  | fuel + 1, pos, dataEnd, txCount =>
    if pos < dataEnd then
      if getByte buffer pos = some 0x0a then
        match decodeVarint buffer (pos + 1).toNat with
        | .error e => some (.error e)
        | .ok v =>
          dataLoop buffer fuel (pos + 1 + (v.bytesRead : Int) + v.value) dataEnd (txCount + 1)
      else
        some (.ok txCount)
    else
      some (.ok txCount)

/-- The body of the `try` block of `parseBlockData` (src/server.js:135-208):
check the leading header tag `0x0a`, read the header length varint, scan the
header contents up to `headerEnd`, then reset the cursor to `headerEnd` and,
when the byte there is the data tag `0x12`, read the data length varint and
count transaction envelopes.  `.error` is a thrown failure, `none` is fuel
exhaustion (source-level non-termination budget). -/
def parseBlockDataInner (buffer : List Nat) (fuel : Nat) :
    Option (Except String BlockMetadata) :=
  if getByte buffer 0 = some 0x0a then
    match decodeVarint buffer 1 with
    | .error e => some (.error e)
    | .ok hl =>
      let headerEnd : Int := 1 + (hl.bytesRead : Int) + hl.value
      match headerLoop buffer fuel (1 + (hl.bytesRead : Int)) headerEnd ⟨none, none, none⟩ with
      | none => none
      | some (.error e) => some (.error e)
      | some (.ok r) =>
        if getByte buffer headerEnd = some 0x12 then
          match decodeVarint buffer (headerEnd + 1).toNat with
          | .error e => some (.error e)
          | .ok dl =>
            match dataLoop buffer fuel (headerEnd + 1 + (dl.bytesRead : Int))
                (headerEnd + 1 + (dl.bytesRead : Int) + dl.value) 0 with
            | none => none
            | some (.error e) => some (.error e)
            | some (.ok n) =>
              some (.ok ⟨r.blockNumber, r.previousHash, r.dataHash, n, none⟩)
        else
          some (.ok ⟨r.blockNumber, r.previousHash, r.dataHash, 0, none⟩)
  else
    some (.error "Expected header field")

/-- `parseBlockData(blockBytes)` (src/server.js:134-220): the `try`/`catch`
wrapper — a thrown failure is converted into the all-absent record carrying
the failure's description. -/
def parseBlockData (buffer : List Nat) (fuel : Nat) : Option BlockMetadata :=
  match parseBlockDataInner buffer fuel with
  | none => none
  | some (.ok r) => some r
  | some (.error e) => some ⟨none, none, none, 0, some e⟩

/-- The chain-info preview of `getChainInfo` (src/server.js:271):
`Buffer.from(infoBytes.slice(0, 32)).toString('hex')`. -/
def infoHex (infoBytes : List Nat) : String :=
  hexOfList (jsSlice infoBytes 0 32)

/-- Modelled from the spec: the repository contains no varint encoder, only
the decoder; §8's round-trip property encodes `n` "as a varint" with 7 data
bits per byte, low groups first, high bit as continuation.  Fuel-structured
so the kernel can evaluate it; `encodeVarintAux fuel n` is the encoding
whenever `n ≤ fuel`. -/
def encodeVarintAux : Nat → Nat → List Nat
  | 0, n => [n % 128]
  | fuel + 1, n => if n < 128 then [n] else (n % 128 + 128) :: encodeVarintAux fuel (n / 128)

/-- Modelled from the spec: base-128 varint encoding of `n` (spec §8). -/
def encodeVarint (n : Nat) : List Nat :=
  encodeVarintAux n n

/-! ### Lemmas about `decodeVarint` -/

/-- The only failure `decodeVarintLoop` can produce is the truncated-varint
message thrown at src/server.js:123. -/
theorem decodeVarintLoop_error_eq :
    ∀ (bytes : List Nat) (acc shift : Nat) (e : String),
      decodeVarintLoop bytes acc shift = .error e → e = "Varint extends beyond buffer" := by
  intro bytes
  induction bytes with
  | nil =>
    intro acc shift e h
    simp only [decodeVarintLoop, Except.error.injEq] at h
    exact h.symm
  | cons b rest ih =>
    intro acc shift e h
    simp only [decodeVarintLoop] at h
    split at h
    · exact absurd h (by simp)
    · split at h
      · exact absurd h (by simp)
      · rename_i v heq
        simp only [Except.error.injEq] at h
        exact h ▸ ih _ _ _ heq

/-- The only failure `decodeVarint` can produce is the truncated-varint
message. -/
theorem decodeVarint_error_eq (buffer : List Nat) (offset : Nat) (e : String)
    (h : decodeVarint buffer offset = .error e) : e = "Varint extends beyond buffer" := by
  unfold decodeVarint at h
  split at h
  · exact absurd h (by simp)
  · rename_i e' heq
    simp only [Except.error.injEq] at h
    exact h ▸ decodeVarintLoop_error_eq _ _ _ _ heq

/-- A successful run of the varint loop consumes at least one byte and at
most the remaining bytes. -/
theorem decodeVarintLoop_bytes_le :
    ∀ (bytes : List Nat) (acc shift p k : Nat),
      decodeVarintLoop bytes acc shift = .ok (p, k) → 1 ≤ k ∧ k ≤ bytes.length := by
  intro bytes
  induction bytes with
  | nil => intro acc shift p k h; exact absurd h (by simp [decodeVarintLoop])
  | cons b rest ih =>
    intro acc shift p k h
    simp only [decodeVarintLoop] at h
    split at h
    · simp only [Except.ok.injEq, Prod.mk.injEq] at h
      obtain ⟨-, hk⟩ := h
      simp only [List.length_cons]
      omega
    · split at h
      · rename_i v k' heq
        simp only [Except.ok.injEq, Prod.mk.injEq] at h
        obtain ⟨-, hk⟩ := h
        have := ih _ _ v k' heq
        simp only [List.length_cons]
        omega
      · exact absurd h (by simp)

/-- If every byte from the cursor to the end of the buffer has the
continuation bit set, the varint loop fails with the truncated-varint
message. -/
theorem decodeVarintLoop_all_continuation :
    ∀ (bytes : List Nat) (acc shift : Nat), (∀ b ∈ bytes, b &&& 0x80 ≠ 0) →
      decodeVarintLoop bytes acc shift = .error "Varint extends beyond buffer" := by
  intro bytes
  induction bytes with
  | nil => intro acc shift _; rfl
  | cons b rest ih =>
    intro acc shift h
    have hb : b &&& 0x80 ≠ 0 := h b (List.mem_cons_self b rest)
    simp only [decodeVarintLoop, if_neg hb]
    rw [ih _ _ (fun x hx => h x (List.mem_cons_of_mem b hx))]

/-! ### Error classification for the two field scans -/

/-- The only failure the header scan can surface is the truncated-varint
message (the loop itself throws nothing: every unrecognized byte is a
one-byte skip). -/
theorem headerLoop_error_eq (buffer : List Nat) :
    ∀ (fuel : Nat) (pos headerEnd : Int) (r : HeaderFields) (e : String),
      headerLoop buffer fuel pos headerEnd r = some (.error e) →
      e = "Varint extends beyond buffer" := by
  intro fuel
  induction fuel with
  | zero => intro pos hEnd r e h; exact absurd h (by simp [headerLoop])
  | succ f ih =>
    intro pos hEnd r e h
    simp only [headerLoop] at h
    split at h
    · split at h
      · split at h
        · rename_i heq
          simp only [Option.some.injEq, Except.error.injEq] at h
          exact h ▸ decodeVarint_error_eq _ _ _ heq
        · exact ih _ _ _ _ h
      · split at h
        · split at h
          · rename_i heq
            simp only [Option.some.injEq, Except.error.injEq] at h
            exact h ▸ decodeVarint_error_eq _ _ _ heq
          · exact ih _ _ _ _ h
        · split at h
          · split at h
            · rename_i heq
              simp only [Option.some.injEq, Except.error.injEq] at h
              exact h ▸ decodeVarint_error_eq _ _ _ heq
            · exact ih _ _ _ _ h
          · exact ih _ _ _ _ h
    · exact absurd h (by simp)

/-- The only failure the transaction-counting scan can surface is the
truncated-varint message. -/
theorem dataLoop_error_eq (buffer : List Nat) :
    ∀ (fuel : Nat) (pos dataEnd : Int) (txCount : Nat) (e : String),
      dataLoop buffer fuel pos dataEnd txCount = some (.error e) →
      e = "Varint extends beyond buffer" := by
  intro fuel
  induction fuel with
  | zero => intro pos dEnd t e h; exact absurd h (by simp [dataLoop])
  | succ f ih =>
    intro pos dEnd t e h
    simp only [dataLoop] at h
    split at h
    · split at h
      · split at h
        · rename_i heq
          simp only [Option.some.injEq, Except.error.injEq] at h
          exact h ▸ decodeVarint_error_eq _ _ _ heq
        · exact ih _ _ _ _ h
      · exact absurd h (by simp)
    · exact absurd h (by simp)

/-- A decode failure raised past the leading-tag check is always the
truncated-varint message. -/
theorem parseBlockDataInner_error_eq (buffer : List Nat) (fuel : Nat) (e : String)
    (h0 : getByte buffer 0 = some 0x0a)
    (h : parseBlockDataInner buffer fuel = some (.error e)) :
    e = "Varint extends beyond buffer" := by
  simp only [parseBlockDataInner, if_pos h0] at h
  split at h
  · rename_i heq
    simp only [Option.some.injEq, Except.error.injEq] at h
    exact h ▸ decodeVarint_error_eq _ _ _ heq
  · split at h
    · exact absurd h (by simp)
    · rename_i heq
      simp only [Option.some.injEq, Except.error.injEq] at h
      exact h ▸ headerLoop_error_eq _ _ _ _ _ _ heq
    · split at h
      · split at h
        · rename_i heq
          simp only [Option.some.injEq, Except.error.injEq] at h
          exact h ▸ decodeVarint_error_eq _ _ _ heq
        · split at h
          · exact absurd h (by simp)
          · rename_i heq
            simp only [Option.some.injEq, Except.error.injEq] at h
            exact h ▸ dataLoop_error_eq _ _ _ _ _ _ heq
          · exact absurd h (by simp)
      · exact absurd h (by simp)

/-- Either failure message the whole decode can raise. -/
theorem parseBlockDataInner_error_mem (buffer : List Nat) (fuel : Nat) (e : String)
    (h : parseBlockDataInner buffer fuel = some (.error e)) :
    e = "Expected header field" ∨ e = "Varint extends beyond buffer" := by
  by_cases h0 : getByte buffer 0 = some 0x0a
  · exact Or.inr (parseBlockDataInner_error_eq buffer fuel e h0 h)
  · simp only [parseBlockDataInner, if_neg h0, Option.some.injEq, Except.error.injEq] at h
    exact Or.inl h.symm

/-- A successful decode never attaches an error description. -/
theorem parseBlockDataInner_ok_no_error (buffer : List Nat) (fuel : Nat) (r : BlockMetadata)
    (h : parseBlockDataInner buffer fuel = some (.ok r)) : r.error = none := by
  simp only [parseBlockDataInner] at h
  split at h
  · split at h
    · exact absurd h (by simp)
    · split at h
      · exact absurd h (by simp)
      · exact absurd h (by simp)
      · split at h
        · split at h
          · exact absurd h (by simp)
          · split at h
            · exact absurd h (by simp)
            · exact absurd h (by simp)
            · simp only [Option.some.injEq, Except.ok.injEq] at h
              rw [← h]
        · simp only [Option.some.injEq, Except.ok.injEq] at h
          rw [← h]
  · exact absurd h (by simp)

/-! ### Claim theorems: failure contract, happy path, bounds behavior -/

/-- Claim C1: whenever the block decode fails — in particular on every buffer
whose first byte is not the header tag `0x0a` — `parseBlockData` does not
propagate the failure: it returns a `BlockMetadata` with `blockNumber`,
`previousHash` and `dataHash` all `none`, `transactionCount = 0`, and a
non-empty error description attached. -/
theorem parseBlockData_failure_contract (buffer : List Nat) (fuel : Nat) :
    (getByte buffer 0 ≠ some 0x0a →
      parseBlockData buffer fuel = some ⟨none, none, none, 0, some "Expected header field"⟩)
    ∧ (∀ e, parseBlockDataInner buffer fuel = some (.error e) →
      parseBlockData buffer fuel = some ⟨none, none, none, 0, some e⟩ ∧ e ≠ "") := by
  constructor
  · intro h
    simp [parseBlockData, parseBlockDataInner, if_neg h]
  · intro e he
    refine ⟨by simp [parseBlockData, he], ?_⟩
    rcases parseBlockDataInner_error_mem buffer fuel e he with h | h <;> simp [h]

/-- Witness for C1 at the one-byte buffer `[0x00]`. -/
theorem parseBlockData_failure_contract_witness :
    parseBlockData [0x00] 0 = some ⟨none, none, none, 0, some "Expected header field"⟩ :=
  (parseBlockData_failure_contract [0x00] 0).1 (by decide)

/-- Claim C2: the hand-built block buffer — header with block number 42 (tag
`0x08`), a 32-byte previous hash of `0xAA` bytes (tag `0x12`), a 32-byte data
hash of `0xBB` bytes (tag `0x1a`), followed by a data sub-message (tag
`0x12`) holding 3 minimal transaction envelopes (tag `0x0a`, length 0) —
decodes to block number 42, the 64-character hex strings of repeated "aa" and
"bb", and transaction count 3, with no error. -/
theorem parseBlockData_happy_path :
    parseBlockData ([0x0a, 70, 0x08, 42, 0x12, 32] ++ List.replicate 32 0xaa
        ++ [0x1a, 32] ++ List.replicate 32 0xbb
        ++ [0x12, 6, 0x0a, 0x00, 0x0a, 0x00, 0x0a, 0x00]) 100
      = some ⟨some 42,
          some "aaaaaaaaaaaaaaaaaaaaaaaaaaaaaaaaaaaaaaaaaaaaaaaaaaaaaaaaaaaaaaaa",
          some "bbbbbbbbbbbbbbbbbbbbbbbbbbbbbbbbbbbbbbbbbbbbbbbbbbbbbbbbbbbbbbbb",
          3, none⟩ := by
  decide

/-- Counterexample to C3 as stated: the buffer `[0x0a, 0x05]` has the leading
header tag `0x0a` and declares a header length of 5, so the header sub-range
ends at 7, past the 2-byte buffer — yet the decode completes as a success
with no error attached, because src/server.js never compares `headerEnd`
against the buffer length. -/
theorem parseBlockData_oversized_header_succeeds :
    parseBlockData [0x0a, 0x05] 10 = some ⟨none, none, none, 0, none⟩
    ∧ decodeVarint [0x0a, 0x05] 1 = .ok ⟨5, 1⟩
    ∧ (([0x0a, 0x05] : List Nat).length : Int) < 1 + 1 + 5 := by
  decide

/-- Claim C3 (amended): a buffer whose leading tag is `0x0a` but whose
declared header length runs past the buffer end is never reported as an
`IndexOutOfRange` failure — no such check exists.  The decode either
completes with no error attached (out-of-range positions are skipped one
byte at a time as unrecognized tags), or fails only with the truncated-varint
message when a recognized tag makes `decodeVarint` read past the end. -/
theorem parseBlockData_oversized_header_error_classes
    (buffer : List Nat) (fuel : Nat) (hl : VarintResult) (r : BlockMetadata)
    (h0 : getByte buffer 0 = some 0x0a)
    (_h1 : decodeVarint buffer 1 = .ok hl)
    (_h2 : (buffer.length : Int) < 1 + hl.bytesRead + hl.value)
    (h3 : parseBlockData buffer fuel = some r) :
    r.error = none ∨ r.error = some "Varint extends beyond buffer" := by
  unfold parseBlockData at h3
  split at h3
  · exact absurd h3 (by simp)
  · rename_i r' heq
    simp only [Option.some.injEq] at h3
    exact Or.inl (h3 ▸ parseBlockDataInner_ok_no_error buffer fuel r' heq)
  · rename_i e heq
    simp only [Option.some.injEq] at h3
    rw [← h3]
    exact Or.inr (by rw [parseBlockDataInner_error_eq buffer fuel e h0 heq])

/-- Witness for the amended C3 at the buffer `[0x0a, 0x05]`. -/
theorem parseBlockData_oversized_header_error_classes_witness :
    (⟨none, none, none, 0, none⟩ : BlockMetadata).error = none ∨
    (⟨none, none, none, 0, none⟩ : BlockMetadata).error = some "Varint extends beyond buffer" :=
  parseBlockData_oversized_header_error_classes [0x0a, 0x05] 10 ⟨5, 1⟩
    ⟨none, none, none, 0, none⟩ (by decide) (by decide) (by decide) (by decide)

/-- Counterexample to C4 as stated: on the buffer `[0x0a, 0x05]` the header
scan runs with its cursor already past the 2-byte buffer end (here from
position 3 up to the declared header end 7) and completes without signaling
any decode failure, and the whole decode succeeds with no error — the cursor
is not kept within the buffer length. -/
theorem headerLoop_cursor_past_end_no_failure :
    headerLoop [0x0a, 0x05] 10 3 7 ⟨none, none, none⟩ = some (.ok ⟨none, none, none⟩)
    ∧ (([0x0a, 0x05] : List Nat).length : Int) < 3
    ∧ parseBlockData [0x0a, 0x05] 10 = some ⟨none, none, none, 0, none⟩ := by
  decide

/-- Claim C4 (amended): the cursor bound is enforced only inside
`decodeVarint`: a successful varint read consumes at least one byte and
never extends past the buffer end (`offset + bytesRead ≤ buffer.length`),
and a varint that would run past the end fails instead.  The two field scans
do not enforce the bound: their cursor may pass the buffer length, with
out-of-range positions read as unrecognized/absent fields rather than
signaling failure (see the counterexample). -/
theorem decodeVarint_consumes_within_bounds (buffer : List Nat) (offset : Nat)
    (v : VarintResult) (h : decodeVarint buffer offset = .ok v) :
    1 ≤ v.bytesRead ∧ offset + v.bytesRead ≤ buffer.length := by
  unfold decodeVarint at h
  split at h
  · rename_i pat k heq
    simp only [Except.ok.injEq] at h
    have hb := decodeVarintLoop_bytes_le _ _ _ _ _ heq
    rw [List.length_drop] at hb
    rw [← h]
    simp only
    omega
  · exact absurd h (by simp)

/-- Witness for the amended C4 at the buffer `[0x05]`, offset 0. -/
theorem decodeVarint_consumes_within_bounds_witness :
    1 ≤ (⟨5, 1⟩ : VarintResult).bytesRead
    ∧ 0 + (⟨5, 1⟩ : VarintResult).bytesRead ≤ ([0x05] : List Nat).length :=
  decodeVarint_consumes_within_bounds [0x05] 0 ⟨5, 1⟩ (by decide)

/-- Claim C5: whenever every byte from the offset to the end of the buffer
has the continuation bit set — so the buffer is exhausted before a
terminating byte is found — `decodeVarint` fails with the truncated-varint
message and returns no partial value. -/
theorem decodeVarint_truncated (buffer : List Nat) (offset : Nat)
    (h : ∀ b ∈ buffer.drop offset, b &&& 0x80 ≠ 0) :
    decodeVarint buffer offset = .error "Varint extends beyond buffer" := by
  unfold decodeVarint
  rw [decodeVarintLoop_all_continuation _ 0 0 h]

/-- Witness for C5: a single byte with the continuation bit set and nothing
after it. -/
theorem decodeVarint_truncated_witness :
    decodeVarint [0x80] 0 = .error "Varint extends beyond buffer" :=
  decodeVarint_truncated [0x80] 0 (by decide)

/-- Claim C7: a buffer with a valid header sub-message after which the
buffer ends or the next byte is not the data tag `0x12` decodes with
`transactionCount = 0` and no error — an absent data section is not a
failure. -/
theorem parseBlockData_header_only (buffer : List Nat) (fuel : Nat)
    (hl : VarintResult) (r : HeaderFields)
    (h0 : getByte buffer 0 = some 0x0a)
    (h1 : decodeVarint buffer 1 = .ok hl)
    (h2 : headerLoop buffer fuel (1 + (hl.bytesRead : Int))
      (1 + (hl.bytesRead : Int) + hl.value) ⟨none, none, none⟩ = some (.ok r))
    (h3 : getByte buffer (1 + (hl.bytesRead : Int) + hl.value) ≠ some 0x12) :
    parseBlockData buffer fuel
      = some ⟨r.blockNumber, r.previousHash, r.dataHash, 0, none⟩ := by
  unfold parseBlockData parseBlockDataInner
  rw [if_pos h0, h1]
  simp only
  rw [h2]
  simp only
  rw [if_neg h3]

/-- Witness for C7: a header-only buffer with an empty header. -/
theorem parseBlockData_header_only_witness :
    parseBlockData [0x0a, 0x00] 1 = some ⟨none, none, none, 0, none⟩ :=
  parseBlockData_header_only [0x0a, 0x00] 1 ⟨0, 1⟩ ⟨none, none, none⟩
    (by decide) (by decide) (by decide) (by decide)

/-- Claim C8: inside the header scan range, a tag byte that is none of
`0x08`, `0x12`, `0x1a` advances the cursor by exactly one byte and the scan
continues from there; an unrecognized tag never raises an error. -/
theorem headerLoop_unknown_tag_skips_one (buffer : List Nat) (fuel : Nat)
    (pos headerEnd : Int) (r : HeaderFields)
    (hin : pos < headerEnd)
    (h8 : getByte buffer pos ≠ some 0x08)
    (h12 : getByte buffer pos ≠ some 0x12)
    (h1a : getByte buffer pos ≠ some 0x1a) :
    headerLoop buffer (fuel + 1) pos headerEnd r
      = headerLoop buffer fuel (pos + 1) headerEnd r := by
  simp only [headerLoop, if_pos hin, if_neg h8, if_neg h12, if_neg h1a]

/-- Witness for C8 at the one-byte buffer `[0x00]` whose byte is not a
recognized tag. -/
theorem headerLoop_unknown_tag_skips_one_witness :
    headerLoop [0x00] 2 0 1 ⟨none, none, none⟩ = headerLoop [0x00] 1 1 1 ⟨none, none, none⟩ :=
  headerLoop_unknown_tag_skips_one [0x00] 1 0 1 ⟨none, none, none⟩
    (by decide) (by decide) (by decide) (by decide)

/-! ### Chain-info preview -/

/-- Claim C9: the chain-info preview hex-encodes exactly the first
`min(32, length)` bytes of the buffer: the empty buffer gives the empty
string, and a buffer shorter than 32 bytes gives the hex of the whole
buffer; there is no failure mode. -/
theorem infoHex_preview (buffer : List Nat) :
    infoHex buffer = hexOfList (buffer.take (min 32 buffer.length))
    ∧ infoHex [] = ""
    ∧ (buffer.length < 32 → infoHex buffer = hexOfList buffer) := by
  have key : infoHex buffer = hexOfList (buffer.take (min 32 buffer.length)) := by
    simp only [infoHex, jsSlice]
    norm_num
    congr 2
    omega
  refine ⟨key, by decide, fun h => ?_⟩
  rw [key, Nat.min_eq_right (Nat.le_of_lt h), List.take_length]

/-- Witness for C9 at the two-byte buffer `[0xde, 0xad]`. -/
theorem infoHex_preview_witness :
    infoHex [0xde, 0xad] = hexOfList (List.take (min 32 ([0xde, 0xad] : List Nat).length) [0xde, 0xad])
    ∧ infoHex [] = ""
    ∧ infoHex [0xde, 0xad] = hexOfList [0xde, 0xad] :=
  ⟨(infoHex_preview [0xde, 0xad]).1, (infoHex_preview [0xde, 0xad]).2.1,
    (infoHex_preview [0xde, 0xad]).2.2 (by decide)⟩

/-! ### Varint round trip and 32-bit accumulation -/

/-- The fuel argument of `encodeVarintAux` is irrelevant once it dominates
the value being encoded. -/
theorem encodeVarintAux_fuel_irrel :
    ∀ (f₁ n : Nat), n ≤ f₁ → ∀ f₂, n ≤ f₂ → encodeVarintAux f₁ n = encodeVarintAux f₂ n := by
  intro f₁
  induction f₁ with
  | zero =>
    intro n hn f₂ _
    have : n = 0 := Nat.le_zero.mp hn
    subst this
    cases f₂ <;> simp [encodeVarintAux]
  | succ f ih =>
    intro n hn f₂ hn2
    cases f₂ with
    | zero =>
      have : n = 0 := Nat.le_zero.mp hn2
      subst this
      simp [encodeVarintAux]
    | succ f₂' =>
      simp only [encodeVarintAux]
      by_cases h : n < 128
      · simp [h]
      · simp only [if_neg h]
        congr 1
        exact ih (n / 128) (by omega) f₂' (by omega)

/-- Unfolding equation for `encodeVarint`. -/
theorem encodeVarint_eq (n : Nat) :
    encodeVarint n = if n < 128 then [n] else (n % 128 + 128) :: encodeVarint (n / 128) := by
  unfold encodeVarint
  cases n with
  | zero => simp [encodeVarintAux]
  | succ m =>
    simp only [encodeVarintAux]
    by_cases h : m + 1 < 128
    · simp [h]
    · simp only [if_neg h]
      congr 1
      exact encodeVarintAux_fuel_irrel m ((m + 1) / 128) (by omega) ((m + 1) / 128) (le_refl _)

/-- Bit-disjoint OR is addition: the JavaScript accumulation
`result |= group << shift` adds the group when the accumulator fits below
the shift. -/
theorem lor_shifted_group (a g s : Nat) (ha : a < 2 ^ s) :
    a ||| g * 2 ^ s = a + g * 2 ^ s := by
  have h := Nat.mul_add_lt_is_or ha g
  rw [Nat.mul_comm (2 ^ s) g] at h
  rw [Nat.lor_comm]
  omega

/-- A byte below 128 has the continuation bit clear. -/
theorem low_byte_and_128 (b : Nat) (h : b < 128) : b &&& 0x80 = 0 := by
  have := Nat.and_two_pow b 7
  rw [Nat.testBit_lt_two_pow (show b < 2 ^ 7 by omega)] at this
  simpa using this

/-- A continuation byte `m + 128` with `m < 128` has the continuation bit
set. -/
theorem high_byte_and_128 (m : Nat) (h : m < 128) : (m + 128) &&& 0x80 = 2 ^ 7 := by
  have htb : (m + 128).testBit 7 = true := by
    have := Nat.testBit_mul_pow_two_add 1 (show m < 2 ^ 7 by omega) 7
    simp only [Nat.lt_irrefl, if_false] at this
    have h1 : 2 ^ 7 * 1 + m = m + 128 := by omega
    rw [h1] at this
    simpa using this
  have := Nat.and_two_pow (m + 128) 7
  rw [htb] at this
  simpa using this

/-- Masking with `0x7f` keeps the low seven bits. -/
theorem and_127_eq_mod (b : Nat) : b &&& 0x7f = b % 128 := by
  have := Nat.and_pow_two_sub_one_eq_mod b 7
  norm_num at this
  exact this

/-- Running the varint loop on the canonical encoding of `n`, with the
accumulator holding `acc < 2^shift`, adds `n * 2^shift` and consumes the
whole encoding — as long as the mathematical value stays below `2^31`, so
that every shift count stays below 32 and no 32-bit truncation occurs. -/
theorem decodeVarintLoop_encode :
    ∀ (n acc shift : Nat), acc < 2 ^ shift → n * 2 ^ shift < 2 ^ 31 →
      decodeVarintLoop (encodeVarint n) acc shift
        = .ok (acc + n * 2 ^ shift, (encodeVarint n).length) := by
  intro n
  induction n using Nat.strong_induction_on with
  | _ n ih =>
    intro acc shift hacc hn
    rw [encodeVarint_eq]
    by_cases h : n < 128
    · simp only [if_pos h]
      rcases Nat.eq_zero_or_pos n with hz | hpos
      · subst hz
        simp [decodeVarintLoop, low_byte_and_128 0 (by omega)]
      · have hs : shift < 31 := by
          by_contra hc
          have h31 : (2 : Nat) ^ 31 ≤ 2 ^ shift := Nat.pow_le_pow_right (by omega) (by omega)
          have : 2 ^ shift ≤ n * 2 ^ shift := Nat.le_mul_of_pos_left _ hpos
          omega
        have hmod : n % 128 = n := Nat.mod_eq_of_lt h
        have hsm : shift % 32 = shift := Nat.mod_eq_of_lt (by omega)
        have hlt32 : n * 2 ^ shift < 2 ^ 32 := lt_trans hn (by norm_num)
        simp only [decodeVarintLoop, and_127_eq_mod, hmod, hsm, Nat.shiftLeft_eq,
          Nat.mod_eq_of_lt hlt32, low_byte_and_128 n h, if_pos rfl, List.length_cons,
          List.length_nil]
        rw [lor_shifted_group acc n shift hacc]
        simp
    · simp only [if_neg h]
      have hpos : 1 ≤ n := by omega
      have hs : shift < 31 := by
        by_contra hc
        have h31 : (2 : Nat) ^ 31 ≤ 2 ^ shift := Nat.pow_le_pow_right (by omega) (by omega)
        have : 2 ^ shift ≤ n * 2 ^ shift := Nat.le_mul_of_pos_left _ hpos
        omega
      have hsm : shift % 32 = shift := Nat.mod_eq_of_lt (by omega)
      have hmm : (n % 128 + 128) &&& 0x7f = n % 128 := by
        rw [and_127_eq_mod]
        omega
      have hbit : ¬((n % 128 + 128) &&& 0x80 = 0) := by
        rw [high_byte_and_128 (n % 128) (Nat.mod_lt n (by omega))]
        norm_num
      have hgrp_le : (n % 128) * 2 ^ shift ≤ n * 2 ^ shift :=
        Nat.mul_le_mul_right _ (Nat.mod_le n 128)
      have hgrp_lt : (n % 128) * 2 ^ shift < 2 ^ 32 := by
        have : (2 : Nat) ^ 31 < 2 ^ 32 := by norm_num
        omega
      have h7 : (2 : Nat) ^ (shift + 7) = 2 ^ shift * 128 := by
        rw [pow_add]
        norm_num
      have hacc' : acc + (n % 128) * 2 ^ shift < 2 ^ (shift + 7) := by
        have hb : (n % 128) * 2 ^ shift ≤ 127 * 2 ^ shift :=
          Nat.mul_le_mul_right _ (by omega)
        calc acc + (n % 128) * 2 ^ shift
            < 2 ^ shift + 127 * 2 ^ shift := by omega
          _ = 2 ^ shift * 128 := by ring
          _ = 2 ^ (shift + 7) := h7.symm
      have hn' : (n / 128) * 2 ^ (shift + 7) < 2 ^ 31 := by
        have hstep : (n / 128) * 2 ^ (shift + 7) = (128 * (n / 128)) * 2 ^ shift := by
          rw [h7]
          ring
        have hle : 128 * (n / 128) ≤ n := Nat.mul_div_le n 128
        have : (128 * (n / 128)) * 2 ^ shift ≤ n * 2 ^ shift :=
          Nat.mul_le_mul_right _ hle
        omega
      have hih := ih (n / 128) (Nat.div_lt_self (by omega) (by omega))
        (acc + (n % 128) * 2 ^ shift) (shift + 7) hacc' hn'
      simp only [decodeVarintLoop, hmm, hsm, Nat.shiftLeft_eq, Nat.mod_eq_of_lt hgrp_lt,
        if_neg hbit]
      rw [lor_shifted_group acc (n % 128) shift hacc, hih]
      simp only [List.length_cons, Except.ok.injEq, Prod.mk.injEq]
      refine ⟨?_, trivial⟩
      have hsum : (n % 128) * 2 ^ shift + (n / 128) * (2 ^ shift * 128) = n * 2 ^ shift := by
        calc (n % 128) * 2 ^ shift + (n / 128) * (2 ^ shift * 128)
            = (n % 128 + 128 * (n / 128)) * 2 ^ shift := by ring
          _ = n * 2 ^ shift := by rw [Nat.mod_add_div]
      rw [h7]
      omega

/-- Decoding the canonical varint encoding of any `n < 2^31` from offset 0
returns exactly `n` and consumes the whole encoding. -/
theorem decodeVarint_encode_exact (n : Nat) (h : n < 2 ^ 31) :
    decodeVarint (encodeVarint n) 0 = .ok ⟨(n : Int), (encodeVarint n).length⟩ := by
  unfold decodeVarint
  rw [List.drop_zero,
    decodeVarintLoop_encode n 0 0 (by norm_num) (by simpa using h)]
  have hm : n % 2 ^ 32 = n := Nat.mod_eq_of_lt (by omega)
  have e1 : 0 + n * 2 ^ 0 = n := by omega
  rw [e1]
  simp only [toInt32]
  rw [hm, if_pos h]

/-- Claim C6: round trip of `decodeVarint` over the canonical base-128
encoding at the sample points 0, 1, 127, 128, 16383, 16384 and 300000000,
with the expected byte counts (1 byte below 128, 2 below 16384, and so on). -/
theorem decodeVarint_round_trip_samples :
    decodeVarint (encodeVarint 0) 0 = .ok ⟨0, 1⟩
    ∧ decodeVarint (encodeVarint 1) 0 = .ok ⟨1, 1⟩
    ∧ decodeVarint (encodeVarint 127) 0 = .ok ⟨127, 1⟩
    ∧ decodeVarint (encodeVarint 128) 0 = .ok ⟨128, 2⟩
    ∧ decodeVarint (encodeVarint 16383) 0 = .ok ⟨16383, 2⟩
    ∧ decodeVarint (encodeVarint 16384) 0 = .ok ⟨16384, 3⟩
    ∧ decodeVarint (encodeVarint 300000000) 0 = .ok ⟨300000000, 5⟩ := by
  decide

/-- Claim C10: the varint accumulator follows JavaScript 32-bit signed
bitwise semantics.  For every `n` below `2^31` the decoder returns exactly
`n`; at `n = 2^31` the 32-bit truncating accumulation surfaces — the decoder
returns `toInt32 (2^31) = -2147483648`, a negative value different from
`n`. -/
theorem decodeVarint_int32_semantics :
    (∀ n : Nat, n < 2 ^ 31 →
      decodeVarint (encodeVarint n) 0 = .ok ⟨(n : Int), (encodeVarint n).length⟩)
    ∧ decodeVarint (encodeVarint (2 ^ 31)) 0 = .ok ⟨toInt32 (2 ^ 31), 5⟩
    ∧ toInt32 (2 ^ 31) = -2147483648
    ∧ toInt32 (2 ^ 31) ≠ ((2 ^ 31 : Nat) : Int)
    ∧ toInt32 (2 ^ 31) < 0 := by
  refine ⟨fun n h => decodeVarint_encode_exact n h, by decide, by decide, by decide, by decide⟩

/-- Witness for C10 at `n = 5`. -/
theorem decodeVarint_int32_semantics_witness :
    decodeVarint (encodeVarint 5) 0 = .ok ⟨5, 1⟩ := by
  have h := decodeVarint_int32_semantics.1 5 (by norm_num)
  rw [h]
  decide
